import Mathlib

/-!
Shallow embedding of `sqlalchemy_utils/__init__.py` (singingwolfboy/sqlalchemy-utils).

Python strings are modelled as `List Char`.  The SQLAlchemy query object is
modelled as a structure holding exactly the data the helpers read or write:
the selected entity classes (`query._entities[i].entity_zero.class_`), the
joined entity classes (`query._join_entities`), the collected column-entity
label names, the accumulated ORDER BY clauses, and the accumulated loader
options.  Entity classes are modelled by the data the code consults: the
underlying table's name and column names (`entity.__table__`), the set of
resolvable class attributes (`getattr(entity, sort)`), and the class-manager
mapped fields (`model._sa_class_manager.values()`).
-/

namespace SqlalchemyUtils

/-- Python `str.split(sep)` for a single-character separator:
`"".split('-') == [""]`, `"a-b".split('-') == ["a", "b"]`. -/
def pySplit (sep : Char) : List Char → List (List Char)
  | [] => [[]]
  | c :: rest =>
    if c = sep then [] :: pySplit sep rest
    else
      match pySplit sep rest with
      | [] => [[c]]
      | part :: parts => (c :: part) :: parts

/-- Python `str.replace(old, new)` for a single-character `old`. -/
def pyReplace (old : Char) (new : List Char) : List Char → List Char
  | [] => []
  | c :: rest => (if c = old then new else [c]) ++ pyReplace old new rest

/-- A mapped item as seen by `InstrumentedList.any` / `InstrumentedList.all`:
a finite attribute table mapping an attribute name to the truthiness of its
value.  `getattr` on a missing name raises `AttributeError`, modelled as
`none`. -/
structure Item where
  attrs : List (List Char × Bool)
deriving DecidableEq

def Item.getattr (it : Item) (a : List Char) : Option Bool :=
  List.lookup a it.attrs

namespace InstrumentedList

/-- `any(self, attr) = any(getattr(item, attr) for item in self)`.
Python's builtin `any` consumes the generator lazily and short-circuits at
the first truthy value; an `AttributeError` raised by `getattr` (modelled as
`Except.error ()`) is not caught. -/
def any (self : List Item) (attr : List Char) : Except Unit Bool :=
  match self with
  | [] => Except.ok false
  | it :: rest =>
    match it.getattr attr with
    | none => Except.error ()
    | some v => if v then Except.ok true else any rest attr

/-- `all(self, attr) = all(getattr(item, attr) for item in self)`.
Short-circuits at the first falsy value; `AttributeError` is not caught. -/
def all (self : List Item) (attr : List Char) : Except Unit Bool :=
  match self with
  | [] => Except.ok true
  | it :: rest =>
    match it.getattr attr with
    | none => Except.error ()
    | some v => if v then all rest attr else Except.ok false

end InstrumentedList

/-- Ordering direction: `sqlalchemy.sql.expression.asc` / `desc`. -/
inductive Dir
  | ascending
  | descending
deriving DecidableEq

/-- A sortable expression: either a result label or a resolved class
attribute (identified by class name and attribute name). -/
inductive Expr
  | label : List Char → Expr
  | attr : List Char → List Char → Expr
deriving DecidableEq

/-- An ORDER BY clause: a direction wrapped around an expression. -/
structure OrderExpr where
  dir : Dir
  expr : Expr
deriving DecidableEq

def desc (e : Expr) : OrderExpr := ⟨Dir.descending, e⟩

def asc (e : Expr) : OrderExpr := ⟨Dir.ascending, e⟩

/-- The kind of a mapped property in `model._sa_class_manager.values()`:
a `ColumnProperty` carrying its first column's name (`property_.columns[0].name`),
or some other property (relationship, composite, ...). -/
inductive PropertyKind
  | columnProp : List Char → PropertyKind
  | otherProp
deriving DecidableEq

/-- One mapped field of a class manager: its property key and kind. -/
structure MappedField where
  key : List Char
  kind : PropertyKind
deriving DecidableEq

/-- A mapped entity class, reduced to the data the helpers consult. -/
structure Entity where
  className : List Char
  tableName : List Char
  tableColumns : List (List Char)
  classAttrs : List (List Char)
  classManagerFields : List MappedField
deriving DecidableEq

/-- `getattr(entity, name)` on the class: resolves to an instrumented
attribute expression, or raises `AttributeError` (modelled as `none`). -/
def Entity.getattr (e : Entity) (a : List Char) : Option Expr :=
  if a ∈ e.classAttrs then some (Expr.attr e.className a) else none

/-- A loader option; `defer(key)` is the only one the code constructs. -/
inductive LoadOption
  | defer : List Char → LoadOption
deriving DecidableEq

/-- The queryable object, reduced to the data the helpers read or write. -/
structure Query where
  selectedEntities : List Entity
  joinEntities : List Entity
  labels : List (List Char)
  ordering : List OrderExpr
  loadOptions : List LoadOption
deriving DecidableEq

def Query.order_by (q : Query) (e : OrderExpr) : Query :=
  { q with ordering := q.ordering ++ [e] }

def Query.options (q : Query) (o : LoadOption) : Query :=
  { q with loadOptions := q.loadOptions ++ [o] }

/-- `if sort[0] == '-': func = desc; sort = sort[1:] else: func = asc`. -/
def stripDirection (sort : List Char) : (Expr → OrderExpr) × List Char :=
  if sort.head? = some '-' then (desc, sort.tail) else (asc, sort)

/-- `parts = sort.split('-'); if len(parts) > 1: component = parts[0]; sort = parts[1]`. -/
def splitComponent (sort : List Char) : Option (List Char) × List Char :=
  match pySplit '-' sort with
  | p0 :: p1 :: _ => (some p0, p1)
  | _ => (none, sort)

/-- `if component and table.name != component: continue` — Python truthiness:
`None` and the empty string are falsy, so neither causes a skip. -/
def componentSkip : Option (List Char) → List Char → Bool
  | none, _ => false
  | some [], _ => false
  | some c, t => t ≠ c

/-- The `for entity in entities:` loop of `sort_query`: skip on component
mismatch; on the first entity whose table has the column, try `getattr` —
on success apply the ordering, on `AttributeError` do nothing — and `break`. -/
def sortLoop (fn : Expr → OrderExpr) (component : Option (List Char))
    (sort : List Char) (query : Query) : List Entity → Query
  | [] => query
  | e :: rest =>
    if componentSkip component e.tableName then
      sortLoop fn component sort query rest
    else if sort ∈ e.tableColumns then
      match e.getattr sort with
      | some a => query.order_by (fn a)
      | none => query
    else
      sortLoop fn component sort query rest

/-- `sort_query(query, sort)` translated clause by clause from the source. -/
def sort_query (query : Query) (sort : List Char) : Query :=
  let entities := query.selectedEntities ++ query.joinEntities
  let labels := query.labels
  if sort = [] then query
  else
    let fn := (stripDirection sort).1
    let stripped := (stripDirection sort).2
    let component := (splitComponent stripped).1
    let field := (splitComponent stripped).2
    if field ∈ labels then query.order_by (fn (Expr.label field))
    else sortLoop fn component field query entities

/-- The `for field in fields:` loop of `defer_except`: for each
`ColumnProperty` whose first column's name is not kept, append a
`defer(property_.key)` option. -/
def deferLoop (columns : List (List Char)) (query : Query) :
    List MappedField → Query
  | [] => query
  | f :: rest =>
    match f.kind with
    | PropertyKind.columnProp cname =>
      if cname ∈ columns then deferLoop columns query rest
      else deferLoop columns (query.options (LoadOption.defer f.key)) rest
    | PropertyKind.otherProp => deferLoop columns query rest

/-- `defer_except(query, columns)`: `query._entities[0]` raises `IndexError`
on an empty selection, modelled as `none`. -/
def defer_except (query : Query) (columns : List (List Char)) : Option Query :=
  match query.selectedEntities with
  | [] => none
  | model :: _ => some (deferLoop columns query model.classManagerFields)

/-- `escape_like(string, escape_char)`: three chained `str.replace` calls. -/
def escape_like (string : List Char) (escape_char : Char := '*') : List Char :=
  pyReplace '_' [escape_char, '_']
    (pyReplace '%' [escape_char, '%']
      (pyReplace escape_char [escape_char, escape_char] string))

/-- Characterisation of the loop condition of `defer_except`: a mapped field
receives a `defer` option exactly when it is a column property whose first
column's name is not among the kept columns. -/
def isDeferredField (columns : List (List Char)) (f : MappedField) : Bool :=
  match f.kind with
  | PropertyKind.columnProp cname => if cname ∈ columns then false else true
  | PropertyKind.otherProp => false

/-- Replacement of every occurrence, written independently of `pyReplace`,
following the spec's words ("replace every occurrence of X with Y") for the
refinement statement about `escape_like`. -/
def replaceEverySpec (old : Char) (new : List Char) (s : List Char) : List Char :=
  List.flatten (s.map fun ch => if ch = old then new else [ch])

/-- The `Article` model of the doctest in `sort_query`'s docstring, with a
`category` relationship attribute. -/
def articleEntity : Entity where
  className := "Article".data
  tableName := "article".data
  tableColumns := ["id".data, "name".data, "category_id".data]
  classAttrs := ["id".data, "name".data, "category_id".data, "category".data]
  classManagerFields :=
    [⟨"id".data, PropertyKind.columnProp "id".data⟩,
     ⟨"name".data, PropertyKind.columnProp "name".data⟩,
     ⟨"category_id".data, PropertyKind.columnProp "category_id".data⟩,
     ⟨"category".data, PropertyKind.otherProp⟩]

/-- The `Category` model of the doctest in `sort_query`'s docstring. -/
def categoryEntity : Entity where
  className := "Category".data
  tableName := "category".data
  tableColumns := ["id".data, "name".data]
  classAttrs := ["id".data, "name".data]
  classManagerFields :=
    [⟨"id".data, PropertyKind.columnProp "id".data⟩,
     ⟨"name".data, PropertyKind.columnProp "name".data⟩]

/-- An entity whose table has a column `secret` that does not resolve as a
class attribute (`getattr` raises `AttributeError`). -/
def ghostEntity : Entity where
  className := "Ghost".data
  tableName := "ghost".data
  tableColumns := ["secret".data]
  classAttrs := []
  classManagerFields := []

/-- A second entity that also has the column `secret`, and on which it does
resolve; placed after `ghostEntity` to show iteration does not retry it. -/
def shadowEntity : Entity where
  className := "Shadow".data
  tableName := "shadow".data
  tableColumns := ["secret".data]
  classAttrs := ["secret".data]
  classManagerFields := []

/-- `session.query(Article).join(Article.category)` of the docstring. -/
def articleQuery : Query where
  selectedEntities := [articleEntity]
  joinEntities := [categoryEntity]
  labels := []
  ordering := []
  loadOptions := []

/-- A query selecting `ghostEntity` with `shadowEntity` joined. -/
def ghostQuery : Query where
  selectedEntities := [ghostEntity]
  joinEntities := [shadowEntity]
  labels := []
  ordering := []
  loadOptions := []

/-- The kept-column set of the spec's `defer_except` example. -/
def keepColumns : List (List Char) := ["id".data, "name".data]

/-- The expected result of `defer_except articleQuery keepColumns`. -/
def articleQueryDeferred : Query :=
  { articleQuery with loadOptions := [LoadOption.defer ("category_id".data)] }

/-- An item whose attribute `a` is truthy. -/
def itemTrue : Item := ⟨[("a".data, true)]⟩

/-- An item with no attributes at all. -/
def itemBare : Item := ⟨[]⟩

/-- An item whose attribute `a` is falsy. -/
def itemFalse : Item := ⟨[("a".data, false)]⟩


theorem pySplit_of_not_mem (sep : Char) (l : List Char) (h : sep ∉ l) :
    pySplit sep l = [l] := by
  induction l with
  | nil => rfl
  | cons c rest ih =>
    rw [List.mem_cons, not_or] at h
    have hc : ¬ c = sep := fun hcs => h.1 hcs.symm
    simp only [pySplit, ih h.2, if_neg hc]

theorem componentSkip_none (t : List Char) : componentSkip none t = false := rfl

theorem componentSkip_some_nil (t : List Char) : componentSkip (some []) t = false := rfl

theorem sortLoop_append_skip (fn : Expr → OrderExpr) (comp : Option (List Char))
    (s : List Char) (q : Query) (pre l : List Entity)
    (h : ∀ e ∈ pre, componentSkip comp e.tableName = true ∨ s ∉ e.tableColumns) :
    sortLoop fn comp s q (pre ++ l) = sortLoop fn comp s q l := by
  induction pre with
  | nil => rfl
  | cons e rest ih =>
    have htail := fun e' he' => h e' (List.mem_cons_of_mem e he')
    rcases h e (List.mem_cons_self e rest) with hskip | hcol
    · simp only [List.cons_append, sortLoop, hskip, if_true]
      exact ih htail
    · by_cases hs : componentSkip comp e.tableName = true
      · simp only [List.cons_append, sortLoop, hs, if_true]
        exact ih htail
      · simp only [List.cons_append, sortLoop, if_neg hs, if_neg hcol]
        exact ih htail

theorem sortLoop_no_column (fn : Expr → OrderExpr) (comp : Option (List Char))
    (s : List Char) (q : Query) (l : List Entity)
    (h : ∀ e ∈ l, s ∉ e.tableColumns) :
    sortLoop fn comp s q l = q := by
  induction l with
  | nil => rfl
  | cons e rest ih =>
    have htail := fun e' he' => h e' (List.mem_cons_of_mem e he')
    simp only [sortLoop]
    split
    · exact ih htail
    · rw [if_neg (h e (List.mem_cons_self e rest))]
      exact ih htail

theorem sortLoop_comp_some_nil (fn : Expr → OrderExpr) (s : List Char)
    (q : Query) (l : List Entity) :
    sortLoop fn (some []) s q l = sortLoop fn none s q l := by
  induction l with
  | nil => rfl
  | cons e rest ih =>
    simp only [sortLoop, componentSkip_some_nil, componentSkip_none, ih]

theorem sortLoop_first_match_some (fn : Expr → OrderExpr)
    (comp : Option (List Char)) (s : List Char) (q : Query)
    (pre : List Entity) (e : Entity) (rest : List Entity) (a : Expr)
    (hpre : ∀ p ∈ pre, componentSkip comp p.tableName = true ∨ s ∉ p.tableColumns)
    (hskip : componentSkip comp e.tableName = false)
    (hcol : s ∈ e.tableColumns) (ha : e.getattr s = some a) :
    sortLoop fn comp s q (pre ++ e :: rest) = q.order_by (fn a) := by
  rw [sortLoop_append_skip fn comp s q pre (e :: rest) hpre]
  simp [sortLoop, hskip, hcol, ha]

theorem sortLoop_first_match_none (fn : Expr → OrderExpr)
    (comp : Option (List Char)) (s : List Char) (q : Query)
    (pre : List Entity) (e : Entity) (rest : List Entity)
    (hpre : ∀ p ∈ pre, componentSkip comp p.tableName = true ∨ s ∉ p.tableColumns)
    (hskip : componentSkip comp e.tableName = false)
    (hcol : s ∈ e.tableColumns) (ha : e.getattr s = none) :
    sortLoop fn comp s q (pre ++ e :: rest) = q := by
  rw [sortLoop_append_skip fn comp s q pre (e :: rest) hpre]
  simp [sortLoop, hskip, hcol, ha]


theorem pyReplace_eq_replaceEverySpec (old : Char) (new : List Char) (s : List Char) :
    pyReplace old new s = replaceEverySpec old new s := by
  induction s with
  | nil => rfl
  | cons c rest ih =>
    simp only [pyReplace, replaceEverySpec, List.map_cons, List.flatten_cons, ih]

/-- C6: `escape_like s c` is the three replacement passes in the stated
order — escape character doubled first, then `%`, then `_` — and the two
concrete examples evaluate as the spec says. -/
theorem escape_like_spec (s : List Char) (c : Char) :
    escape_like s c =
      replaceEverySpec '_' [c, '_']
        (replaceEverySpec '%' [c, '%'] (replaceEverySpec c [c, c] s)) ∧
    escape_like ("50%_off".data) '*' = "50*%*_off".data ∧
    escape_like ("a*b".data) '*' = "a**b".data := by
  refine ⟨?_, by decide, by decide⟩
  simp only [escape_like, pyReplace_eq_replaceEverySpec]

/-- C9: `any` over the empty collection returns `False` (never an error),
the dual of the vacuous truth of `all`. -/
theorem any_empty_false (a : List Char) :
    InstrumentedList.any [] a = Except.ok false := rfl

/-- C1 counterexample: `"a-b-c"` splits into three parts, yet the whole
remainder is not used as the field name — the code takes `component = "a"`,
`field = "b"` whenever there are two or more parts, refuting the claim's
"in every other case the whole remainder is used as the field name". -/
theorem splitComponent_three_parts_cex :
    ¬ ((pySplit '-' ("a-b-c".data)).length ≠ 2 →
        splitComponent ("a-b-c".data) = (none, "a-b-c".data)) := by decide

/-- C1 amended: a component selector is taken iff the directive splits into
two or more parts; then the first part is the selector and the second the
field name (parts beyond the second are discarded); with a single part the
whole remainder is the field name. -/
theorem splitComponent_multipart (s p0 p1 : List Char) (rest : List (List Char)) :
    ((splitComponent s).1.isSome ↔ 2 ≤ (pySplit '-' s).length) ∧
    (pySplit '-' s = p0 :: p1 :: rest → splitComponent s = (some p0, p1)) ∧
    (pySplit '-' s = [p0] → splitComponent s = (none, s)) := by
  refine ⟨?_, fun h => by simp [splitComponent, h], fun h => by simp [splitComponent, h]⟩
  rcases h : pySplit '-' s with _ | ⟨a, _ | ⟨b, l⟩⟩ <;> simp [splitComponent, h]

theorem splitComponent_multipart_witness :
    splitComponent ("x-y-z".data) = (some ("x".data), "y".data) ∧
    splitComponent ("plain".data) = (none, "plain".data) :=
  ⟨(splitComponent_multipart ("x-y-z".data) ("x".data) ("y".data) ["z".data]).2.1 (by decide),
   (splitComponent_multipart ("plain".data) ("plain".data) [] []).2.2 (by decide)⟩

/-- C7: with a non-empty component selector, every candidate entity whose
table name differs from the selector is skipped; concretely, sorting the
doctest's article/category query by `"category-name"` orders by the `name`
attribute of the table literally named `category`, not by the `name` column
of the article entity that precedes it. -/
theorem sort_query_component_filter (fn : Expr → OrderExpr) (c s : List Char)
    (q : Query) (pre l : List Entity)
    (hc : c ≠ []) (hpre : ∀ e ∈ pre, e.tableName ≠ c) :
    sortLoop fn (some c) s q (pre ++ l) = sortLoop fn (some c) s q l ∧
    sort_query articleQuery ("category-name".data) =
      articleQuery.order_by (asc (Expr.attr ("Category".data) ("name".data))) := by
  refine ⟨sortLoop_append_skip fn (some c) s q pre l fun e he => Or.inl ?_, by decide⟩
  rcases c with _ | ⟨x, xs⟩
  · exact absurd rfl hc
  · simpa [componentSkip] using hpre e he

theorem sort_query_component_filter_witness :
    sortLoop asc (some ("category".data)) ("name".data) articleQuery
        ([articleEntity] ++ [categoryEntity]) =
      sortLoop asc (some ("category".data)) ("name".data) articleQuery [categoryEntity] :=
  (sort_query_component_filter asc ("category".data) ("name".data) articleQuery
    [articleEntity] [categoryEntity] (by decide) (by decide)).1

/-- C10: a second leading hyphen parses as an empty component selector,
which Python truthiness treats as absent, so `--field` behaves exactly like
`-field` for any hyphen-free field name. -/
theorem sort_query_double_hyphen (q : Query) (f : List Char) (h : '-' ∉ f) :
    sort_query q ('-' :: '-' :: f) = sort_query q ('-' :: f) := by
  have hsplit := pySplit_of_not_mem '-' f h
  have h1 : splitComponent ('-' :: f) = (some [], f) := by
    simp [splitComponent, pySplit, hsplit]
  have h2 : splitComponent f = (none, f) := by simp [splitComponent, hsplit]
  by_cases hl : f ∈ q.labels
  · simp [sort_query, stripDirection, h1, h2, hl]
  · simp [sort_query, stripDirection, h1, h2, hl, sortLoop_comp_some_nil]

theorem sort_query_double_hyphen_witness :
    sort_query articleQuery ('-' :: '-' :: "name".data) =
      sort_query articleQuery ('-' :: "name".data) :=
  sort_query_double_hyphen articleQuery ("name".data) (by decide)


/-- C3: an empty directive, or a field name matching no collected label and
no column of any candidate entity, leaves the query (and in particular its
ordering clause) unchanged; the function is total, so no error is raised. -/
theorem sort_query_unknown_field_noop (q : Query) (d : List Char) :
    sort_query q [] = q ∧
    ((splitComponent (stripDirection d).2).2 ∉ q.labels →
      (∀ e ∈ q.selectedEntities ++ q.joinEntities,
        (splitComponent (stripDirection d).2).2 ∉ e.tableColumns) →
      sort_query q d = q) := by
  refine ⟨rfl, fun hlab hcols => ?_⟩
  by_cases hd : d = []
  · subst hd; rfl
  · simp only [sort_query, if_neg hd, if_neg hlab]
    exact sortLoop_no_column _ _ _ _ _ hcols

theorem sort_query_unknown_field_noop_witness :
    sort_query articleQuery ("bogus".data) = articleQuery :=
  (sort_query_unknown_field_noop articleQuery ("bogus".data)).2 (by decide) (by decide)

/-- C2: when the resolved field name is a column of the first candidate
entity that survives the component filter (all earlier candidates are
either filtered out or lack the column) but `getattr` on that entity class
fails, the `AttributeError` is suppressed, the loop `break`s without trying
any later entity, and the query comes back with no ordering applied. -/
theorem sort_query_attr_failure_stops (q : Query) (d : List Char)
    (pre : List Entity) (e : Entity) (rest : List Entity)
    (hd : d ≠ [])
    (hlab : (splitComponent (stripDirection d).2).2 ∉ q.labels)
    (hent : q.selectedEntities ++ q.joinEntities = pre ++ e :: rest)
    (hpre : ∀ p ∈ pre,
      componentSkip (splitComponent (stripDirection d).2).1 p.tableName = true ∨
      (splitComponent (stripDirection d).2).2 ∉ p.tableColumns)
    (hskip : componentSkip (splitComponent (stripDirection d).2).1 e.tableName = false)
    (hcol : (splitComponent (stripDirection d).2).2 ∈ e.tableColumns)
    (ha : e.getattr (splitComponent (stripDirection d).2).2 = none) :
    sort_query q d = q := by
  simp only [sort_query, if_neg hd, if_neg hlab, hent]
  exact sortLoop_first_match_none _ _ _ _ _ _ _ hpre hskip hcol ha

theorem sort_query_attr_failure_stops_witness :
    sort_query ghostQuery ("secret".data) = ghostQuery :=
  sort_query_attr_failure_stops ghostQuery ("secret".data) [] ghostEntity [shadowEntity]
    (by decide) (by decide) rfl (by decide) (by decide) (by decide) (by decide)

/-- C8: for a hyphen-free field name that resolves on the first matching
candidate entity, directive `-field` appends a descending clause on the
resolved attribute and directive `field` appends an ascending one; the
leading `-` is stripped before resolution. -/
theorem sort_query_direction (q : Query) (f : List Char)
    (pre : List Entity) (e : Entity) (rest : List Entity) (a : Expr)
    (hnh : '-' ∉ f) (hne : f ≠ [])
    (hlab : f ∉ q.labels)
    (hent : q.selectedEntities ++ q.joinEntities = pre ++ e :: rest)
    (hpre : ∀ p ∈ pre, f ∉ p.tableColumns)
    (hcol : f ∈ e.tableColumns)
    (ha : e.getattr f = some a) :
    sort_query q ('-' :: f) = q.order_by (desc a) ∧
    sort_query q f = q.order_by (asc a) := by
  have hsplit := pySplit_of_not_mem '-' f hnh
  have h2 : splitComponent f = (none, f) := by simp [splitComponent, hsplit]
  have hpre' : ∀ p ∈ pre, componentSkip none p.tableName = true ∨ f ∉ p.tableColumns :=
    fun p hp => Or.inr (hpre p hp)
  have hstrip : stripDirection f = (asc, f) := by
    cases f with
    | nil => exact absurd rfl hne
    | cons x xs =>
      have hx : ¬ x = '-' := by
        rintro rfl
        exact hnh (List.mem_cons_self _ _)
      simp [stripDirection, hx]
  constructor
  · have hd : ¬('-' :: f : List Char) = [] := by simp
    have hstrip2 : stripDirection ('-' :: f) = (desc, f) := by simp [stripDirection]
    simp only [sort_query, if_neg hd, hstrip2, h2, if_neg hlab, hent]
    exact sortLoop_first_match_some desc none f q pre e rest a hpre' rfl hcol ha
  · simp only [sort_query, if_neg hne, hstrip, h2, if_neg hlab, hent]
    exact sortLoop_first_match_some asc none f q pre e rest a hpre' rfl hcol ha

theorem sort_query_direction_witness :
    sort_query articleQuery ('-' :: "name".data) =
      articleQuery.order_by (desc (Expr.attr ("Article".data) ("name".data))) ∧
    sort_query articleQuery ("name".data) =
      articleQuery.order_by (asc (Expr.attr ("Article".data) ("name".data))) :=
  sort_query_direction articleQuery ("name".data) [] articleEntity [categoryEntity]
    (Expr.attr ("Article".data) ("name".data))
    (by decide) (by decide) (by decide) rfl (by decide) (by decide) (by decide)


theorem all_ok_true_iff (S : List Item) (a : List Char)
    (h : ∀ it ∈ S, (Item.getattr it a).isSome) :
    InstrumentedList.all S a = Except.ok true ↔ ∀ it ∈ S, it.getattr a = some true := by
  induction S with
  | nil => simp [InstrumentedList.all]
  | cons it rest ih =>
    have hit := h it (List.mem_cons_self it rest)
    have htail := fun x hx => h x (List.mem_cons_of_mem it hx)
    rcases hv : it.getattr a with _ | b
    · rw [hv] at hit
      simp at hit
    · cases b
      · simp [InstrumentedList.all, hv, List.forall_mem_cons]
      · simp [InstrumentedList.all, hv, List.forall_mem_cons, ih htail]

theorem any_ok_true_iff (S : List Item) (a : List Char)
    (h : ∀ it ∈ S, (Item.getattr it a).isSome) :
    InstrumentedList.any S a = Except.ok true ↔ ∃ it ∈ S, it.getattr a = some true := by
  induction S with
  | nil => simp [InstrumentedList.any]
  | cons it rest ih =>
    have hit := h it (List.mem_cons_self it rest)
    have htail := fun x hx => h x (List.mem_cons_of_mem it hx)
    rcases hv : it.getattr a with _ | b
    · rw [hv] at hit
      simp at hit
    · cases b
      · simp [InstrumentedList.any, hv, ih htail]
      · simp [InstrumentedList.any, hv]

theorem all_error_of_prefix_true (pre : List Item) (bad : Item) (rest : List Item)
    (a : List Char) (hbad : bad.getattr a = none)
    (hpre : ∀ it ∈ pre, it.getattr a = some true) :
    InstrumentedList.all (pre ++ bad :: rest) a = Except.error () := by
  induction pre with
  | nil => simp [InstrumentedList.all, hbad]
  | cons it pre2 ih =>
    have hit := hpre it (List.mem_cons_self it pre2)
    simp only [List.cons_append, InstrumentedList.all, hit, if_true]
    exact ih fun x hx => hpre x (List.mem_cons_of_mem it hx)

theorem any_error_of_prefix_false (pre : List Item) (bad : Item) (rest : List Item)
    (a : List Char) (hbad : bad.getattr a = none)
    (hpre : ∀ it ∈ pre, it.getattr a = some false) :
    InstrumentedList.any (pre ++ bad :: rest) a = Except.error () := by
  induction pre with
  | nil => simp [InstrumentedList.any, hbad]
  | cons it pre2 ih =>
    have hit := hpre it (List.mem_cons_self it pre2)
    simp only [List.cons_append, InstrumentedList.any, hit]
    exact ih fun x hx => hpre x (List.mem_cons_of_mem it hx)

theorem all_error_elim (S : List Item) (a : List Char)
    (h : InstrumentedList.all S a = Except.error ()) :
    ∃ pre bad rest, S = pre ++ bad :: rest ∧ Item.getattr bad a = none ∧
      ∀ it ∈ pre, it.getattr a = some true := by
  induction S with
  | nil => exact absurd h (by simp [InstrumentedList.all])
  | cons it rest ih =>
    rcases hv : it.getattr a with _ | b
    · exact ⟨[], it, rest, rfl, hv, by simp⟩
    · cases b
      · rw [InstrumentedList.all, hv] at h
        simp at h
      · rw [InstrumentedList.all, hv] at h
        simp only [if_true] at h
        obtain ⟨pre, bad, rest2, heq, hbad, hpre⟩ := ih h
        exact ⟨it :: pre, bad, rest2, by simp [heq], hbad,
          List.forall_mem_cons.mpr ⟨hv, hpre⟩⟩

theorem any_error_elim (S : List Item) (a : List Char)
    (h : InstrumentedList.any S a = Except.error ()) :
    ∃ pre bad rest, S = pre ++ bad :: rest ∧ Item.getattr bad a = none ∧
      ∀ it ∈ pre, it.getattr a = some false := by
  induction S with
  | nil => exact absurd h (by simp [InstrumentedList.any])
  | cons it rest ih =>
    rcases hv : it.getattr a with _ | b
    · exact ⟨[], it, rest, rfl, hv, by simp⟩
    · cases b
      · rw [InstrumentedList.any, hv] at h
        simp only [if_neg (by simp : ¬(false = true))] at h
        obtain ⟨pre, bad, rest2, heq, hbad, hpre⟩ := ih h
        exact ⟨it :: pre, bad, rest2, by simp [heq], hbad,
          List.forall_mem_cons.mpr ⟨hv, hpre⟩⟩
      · rw [InstrumentedList.any, hv] at h
        simp at h

/-- C5 counterexample: Python's builtin `any` consumes the attribute
generator lazily, so on `[itemTrue, itemBare]` — where the second item
lacks the attribute — `any` short-circuits at the first truthy value and
returns normally instead of propagating the `AttributeError`. -/
theorem any_short_circuit_cex :
    ¬ ((∃ it ∈ [itemTrue, itemBare], Item.getattr it ("a".data) = none) →
        InstrumentedList.any [itemTrue, itemBare] ("a".data) = Except.error ()) := by
  intro hcl
  have h2 := hcl ⟨itemBare, by decide, rfl⟩
  have h1 : InstrumentedList.any [itemTrue, itemBare] ("a".data) = Except.ok true := rfl
  rw [h1] at h2
  cases h2

/-- C5 amended: with the attribute present on every item, `all` is true iff
every item's attribute is truthy and `any` is true iff some item's is;
`all` on the empty sequence is true; and an `AttributeError` propagates
uncaught exactly when the sequence decomposes as some earlier items, then an
item lacking the attribute — with every earlier item truthy for `all`,
falsy for `any` — i.e. exactly when evaluation reaches a lacking item
before short-circuiting. -/
theorem instrumented_predicates_spec (S : List Item) (a : List Char) :
    InstrumentedList.all [] a = Except.ok true ∧
    ((∀ it ∈ S, (Item.getattr it a).isSome) →
      ((InstrumentedList.all S a = Except.ok true ↔ ∀ it ∈ S, it.getattr a = some true) ∧
       (InstrumentedList.any S a = Except.ok true ↔ ∃ it ∈ S, it.getattr a = some true))) ∧
    (InstrumentedList.all S a = Except.error () ↔
      ∃ pre bad rest, S = pre ++ bad :: rest ∧ Item.getattr bad a = none ∧
        ∀ it ∈ pre, it.getattr a = some true) ∧
    (InstrumentedList.any S a = Except.error () ↔
      ∃ pre bad rest, S = pre ++ bad :: rest ∧ Item.getattr bad a = none ∧
        ∀ it ∈ pre, it.getattr a = some false) := by
  refine ⟨rfl, fun h => ⟨all_ok_true_iff S a h, any_ok_true_iff S a h⟩,
    ⟨all_error_elim S a, ?_⟩, ⟨any_error_elim S a, ?_⟩⟩
  · rintro ⟨pre, bad, rest, rfl, hbad, hpre⟩
    exact all_error_of_prefix_true pre bad rest a hbad hpre
  · rintro ⟨pre, bad, rest, rfl, hbad, hpre⟩
    exact any_error_of_prefix_false pre bad rest a hbad hpre

theorem instrumented_predicates_spec_witness :
    ((InstrumentedList.all [itemTrue] ("a".data) = Except.ok true ↔
        ∀ it ∈ [itemTrue], it.getattr ("a".data) = some true) ∧
     (InstrumentedList.any [itemTrue] ("a".data) = Except.ok true ↔
        ∃ it ∈ [itemTrue], it.getattr ("a".data) = some true)) ∧
    InstrumentedList.all [itemTrue, itemBare] ("a".data) = Except.error () ∧
    InstrumentedList.any [itemFalse, itemBare] ("a".data) = Except.error () :=
  ⟨(instrumented_predicates_spec [itemTrue] ("a".data)).2.1 (by decide),
   ((instrumented_predicates_spec [itemTrue, itemBare] ("a".data)).2.2.1).mpr
      ⟨[itemTrue], itemBare, [], rfl, rfl, by decide⟩,
   ((instrumented_predicates_spec [itemFalse, itemBare] ("a".data)).2.2.2).mpr
      ⟨[itemFalse], itemBare, [], rfl, rfl, by decide⟩⟩


theorem deferLoop_eq (cols : List (List Char)) (q : Query) (fields : List MappedField) :
    deferLoop cols q fields =
      { q with loadOptions := q.loadOptions ++
          (fields.filter (isDeferredField cols)).map fun f => LoadOption.defer f.key } := by
  induction fields generalizing q with
  | nil => simp [deferLoop]
  | cons f rest ih =>
    obtain ⟨key, kind⟩ := f
    cases kind with
    | columnProp cname =>
      by_cases hc : cname ∈ cols
      · simp [deferLoop, isDeferredField, hc, ih, List.filter_cons]
      · simp [deferLoop, isDeferredField, hc, ih, List.filter_cons, Query.options,
          List.append_assoc]
    | otherProp => simp [deferLoop, isDeferredField, ih, List.filter_cons]

/-- C4: `defer_except` appends loader options only; among the primary
entity's mapped fields, a simple column property receives a `defer`
directive exactly when its column name is outside the kept set (so the
eagerly loaded simple columns are exactly the kept ones that exist), and a
non-column property never receives one. -/
theorem defer_except_keeps_exactly (q : Query) (keep : List (List Char))
    (model : Entity) (es : List Entity) (r : Query)
    (hsel : q.selectedEntities = model :: es)
    (hr : defer_except q keep = some r)
    (hnd : (model.classManagerFields.map MappedField.key).Nodup) :
    (∀ f ∈ model.classManagerFields, ∀ cname,
        f.kind = PropertyKind.columnProp cname →
        (LoadOption.defer f.key ∈ r.loadOptions.drop q.loadOptions.length ↔
          cname ∉ keep)) ∧
    (∀ f ∈ model.classManagerFields, f.kind = PropertyKind.otherProp →
        LoadOption.defer f.key ∉ r.loadOptions.drop q.loadOptions.length) := by
  have hrr : r = deferLoop keep q model.classManagerFields := by
    rw [defer_except, hsel] at hr
    exact (Option.some.injEq _ _ ▸ hr).symm
  have hinj := List.inj_on_of_nodup_map hnd
  have hdrop : r.loadOptions.drop q.loadOptions.length =
      (model.classManagerFields.filter (isDeferredField keep)).map
        fun f => LoadOption.defer f.key := by
    rw [hrr, deferLoop_eq]
    exact List.drop_left _ _
  have hmem : ∀ f ∈ model.classManagerFields,
      (LoadOption.defer f.key ∈ r.loadOptions.drop q.loadOptions.length ↔
        isDeferredField keep f = true) := by
    intro f hf
    rw [hdrop]
    constructor
    · intro hin
      obtain ⟨g, hg, hkey⟩ := List.mem_map.mp hin
      obtain ⟨hgmem, hgdef⟩ := List.mem_filter.mp hg
      have : g = f := hinj hgmem hf (by injection hkey)
      exact this ▸ hgdef
    · intro hdef
      exact List.mem_map.mpr ⟨f, List.mem_filter.mpr ⟨hf, hdef⟩, rfl⟩
  constructor
  · intro f hf cname hkind
    rw [hmem f hf]
    simp [isDeferredField, hkind]
  · intro f hf hkind
    rw [hmem f hf]
    simp [isDeferredField, hkind]

theorem defer_except_keeps_exactly_witness :
    (∀ f ∈ articleEntity.classManagerFields, ∀ cname,
        f.kind = PropertyKind.columnProp cname →
        (LoadOption.defer f.key ∈
            articleQueryDeferred.loadOptions.drop articleQuery.loadOptions.length ↔
          cname ∉ keepColumns)) ∧
    (∀ f ∈ articleEntity.classManagerFields, f.kind = PropertyKind.otherProp →
        LoadOption.defer f.key ∉
          articleQueryDeferred.loadOptions.drop articleQuery.loadOptions.length) :=
  defer_except_keeps_exactly articleQuery keepColumns articleEntity [] articleQueryDeferred
    rfl (by decide) (by decide)

end SqlalchemyUtils
